import Mathlib

/-!
Verification of the CSKG graph-traversal core.

This file shallowly embeds the traversal core of the repository
(`src/core/distant_nodes.py`, `src/core/shortest_path.py`,
`src/core/similar_nodes.py`) in Lean 4 and settles the frozen claims
about it.

Modelling conventions:
* Python dicts become association lists (`afind` / `aset`), preserving
  the source's insert-or-overwrite and membership semantics.
* Python sets of booleans become duplicate-free `List Bool` with an
  `addSign` operation mirroring `set.add`.
* `while` loops and the recursive tree walk become fuel-indexed
  recursions; the fuel is ghost state (the source loops until its queue
  empties, and recurses to the store-bounded tree depth) and every
  invariant theorem is quantified over all fuel values.
* `error_print` in `src/core/message_handler.py` calls `sys.exit(1)`,
  so reaching it aborts the whole call; it is modelled as
  `Except.error`.  A store query that raises is likewise an
  `Except.error` at the store boundary.
* The graph store itself is external (section 6 of the spec); it is
  modelled as a structure of abstract query functions.
* The BFS loop additionally records two ghost traces, `pops` (the
  distance of every entry popped from the queue, in pop order) and
  `discs` (every discovery event `(node, distance)`, i.e. every time a
  neighbor is reached, plus the seeding of the root).  They are
  write-only instrumentation: the computation of `visited` never reads
  them.
-/

set_option maxHeartbeats 1000000

section AssocListDefs

variable {α : Type} {β : Type} [DecidableEq α]

/-- Lookup in an association list (Python `d[k]` / `k in d` / `d.get(k)`). -/
def afind : List (α × β) → α → Option β
  | [], _ => none
  | (k, v) :: rest, a => if k = a then some v else afind rest a

/-- Insert-or-overwrite in an association list (Python `d[k] = v`). -/
def aset : List (α × β) → α → β → List (α × β)
  | [], a, v => [(a, v)]
  | (k, w) :: rest, a, v => if k = a then (a, v) :: rest else (k, w) :: aset rest a v

end AssocListDefs

/-- Label lookup with the id itself as default
(Python `nodes_info.get(node, node)` / `node_labels.get(n, n)`). -/
def labelOf {α : Type} [DecidableEq α] (nodes_info : List (α × α)) (n : α) : α :=
  match afind nodes_info n with
  | some l => l
  | none => n

section DistantNodesDefs

variable {α : Type} [DecidableEq α]

/-- A relationship graph: node to adjacency list of `(neighbor, sign)`
pairs, `true` tagging synonym edges and `false` antonym edges
(the `graph` dict of `src/core/distant_nodes.py`). -/
abbrev RelGraph (α : Type) := List (α × List (α × Bool))

/-- Python `graph.get(current_id, [])`. -/
def RelGraph.get (g : RelGraph α) (n : α) : List (α × Bool) :=
  match afind g n with
  | some l => l
  | none => []

/-- Visited record of the distance-bounded BFS:
node to `(distance, possible relationship signs)`. -/
abbrev VisitedRec (α : Type) := List (α × Nat × List Bool)

/-- Python `set.add` on a sign set represented as a duplicate-free list. -/
def addSign (s : List Bool) (b : Bool) : List Bool :=
  if b ∈ s then s else s ++ [b]

/-- Sign propagated to a neighbor:
`neighbor_is_synonym = is_synonym if is_synonym_edge else not is_synonym`
(line 99 of `src/core/distant_nodes.py`). -/
def neighborSign (is_synonym : Bool) (is_synonym_edge : Bool) : Bool :=
  if is_synonym_edge then is_synonym else !is_synonym

/-- One step of the inner neighbor loop of `find_nodes_at_distance`.
The accumulator is `(visited, queue, discs)` where `discs` is the ghost
trace of discovery events. -/
def bfsStep (curr : α × Nat × Bool)
    (acc : VisitedRec α × List (α × Nat × Bool) × List (α × Nat))
    (nbr : α × Bool) :
    VisitedRec α × List (α × Nat × Bool) × List (α × Nat) :=
  let (v, q, ds) := acc
  let n := nbr.1
  let ns := neighborSign curr.2.2 nbr.2
  let nd := curr.2.1 + 1
  let ds' := ds ++ [(n, nd)]
  match afind v n with
  | none =>
      -- first time seeing this node
      (aset v n (nd, [ns]), q ++ [(n, nd, ns)], ds')
  | some (d0, ss) =>
      if nd = d0 then
        -- same distance but possibly different relationship type
        (aset v n (d0, addSign ss ns), q, ds')
      else if nd < d0 then
        -- found a shorter path
        (aset v n (nd, [ns]), q ++ [(n, nd, ns)], ds')
      else
        (v, q, ds')

/-- Result of the BFS: the visited record plus the two ghost traces. -/
structure BFSOut (α : Type) where
  visited : VisitedRec α
  pops : List Nat
  discs : List (α × Nat)

/-- The `while queue:` loop of `find_nodes_at_distance`, fuel-indexed. -/
def bfsLoop (g : RelGraph α) (distance : Nat) :
    Nat → List (α × Nat × Bool) → VisitedRec α → List Nat → List (α × Nat) →
    BFSOut α
  | 0, _, v, ps, ds => ⟨v, ps, ds⟩
  | _ + 1, [], v, ps, ds => ⟨v, ps, ds⟩
  | fuel + 1, (c, d, s) :: q, v, ps, ds =>
    if distance ≤ d then
      -- skip further traversal once we have reached our distance
      bfsLoop g distance fuel q v (ps ++ [d]) ds
    else
      let acc := (g.get c).foldl (bfsStep (c, d, s)) (v, q, ds)
      bfsLoop g distance fuel acc.2.1 acc.1 (ps ++ [d]) acc.2.2

/-- `find_nodes_at_distance(node_id, distance, graph)` of
`src/core/distant_nodes.py`; `fuel` bounds the loop (ghost). -/
def find_nodes_at_distance (node_id : α) (distance : Nat) (g : RelGraph α)
    (fuel : Nat) : BFSOut α :=
  bfsLoop g distance fuel [(node_id, 0, true)] [(node_id, 0, [true])]
    [] [(node_id, 0)]

/-- `filter_results(visited, nodes_info, distance, node_id, want_synonyms)`
of `src/core/distant_nodes.py`: keep nodes at the target distance other
than the root whose sign set contains the wanted sign, emitted as
`(id, label)` with the label defaulting to the id. -/
def filter_results (visited : VisitedRec α) (nodes_info : List (α × α))
    (distance : Nat) (node_id : α) (want_synonyms : Bool) : List (α × α) :=
  visited.filterMap (fun e =>
    if e.2.1 = distance ∧ e.1 ≠ node_id ∧ want_synonyms ∈ e.2.2 then
      some (e.1, labelOf nodes_info e.1)
    else none)

/-- Distances of the queue entries, in order (proof device for the BFS
invariants). -/
def qdists (q : List (α × Nat × Bool)) : List Nat := q.map (fun x => x.2.1)

/-- The recorded distance of every visited node is the minimum over all
discovery events for that node (proof device). -/
def VMin (v : VisitedRec α) (ds : List (α × Nat)) : Prop :=
  ∀ n dn ss, afind v n = some (dn, ss) →
    (n, dn) ∈ ds ∧ ∀ d', (n, d') ∈ ds → dn ≤ d'

/-- Every discovered node is in the visited record (proof device). -/
def DiscClosed (v : VisitedRec α) (ds : List (α × Nat)) : Prop :=
  ∀ n d', (n, d') ∈ ds → (afind v n).isSome

end DistantNodesDefs

/-- An edge-type value of `src/core/similar_nodes.py`: either a plain
string, a list of strings (the combined-value convention), or any other
runtime shape. -/
inductive EdgeType where
  | str : String → EdgeType
  | strs : List String → EdgeType
  | other : EdgeType
deriving DecidableEq

/-- `edge_types_match(edge_type1, edge_type2)` of
`src/core/similar_nodes.py`: equal strings, lists with a common element,
or a string contained in the other's list; every other shape
combination falls through to `False`. -/
def edge_types_match : EdgeType → EdgeType → Bool
  | .str a, .str b => a = b
  | .strs a, .strs b => a.any (fun e => e ∈ b)
  | .str a, .strs b => a ∈ b
  | .strs a, .str b => b ∈ a
  | _, _ => false

/-- A JSON-like value as returned by the store, in first-order form:
objects and arrays are encoded as constructor chains so that all
recursion over them is structural. `strs` covers the combined-value
convention where an id or label was split into a list of strings. -/
inductive JVal where
  | str (s : String)
  | strs (l : List String)
  | objNil
  | objCons (key : String) (value : JVal) (rest : JVal)
  | arrNil
  | arrCons (head : JVal) (tail : JVal)
deriving DecidableEq

/-- Python `data[k]` on a dict-like value (`none` when absent or when
the value is not a dict). -/
def jget : JVal → String → Option JVal
  | .objCons k v rest, key => if k = key then some v else jget rest key
  | _, _ => none

/-- Python `isinstance(data, dict)`. -/
def isObj : JVal → Bool
  | .objNil => true
  | .objCons _ _ _ => true
  | _ => false

/-- Python `isinstance(data, list)`. -/
def isArr : JVal → Bool
  | .arrNil => true
  | .arrCons _ _ => true
  | _ => false

/-- Python `"k" in data` for dict-like values. -/
def hasKey (data : JVal) (k : String) : Bool :=
  (jget data k).isSome

/-- Python falsiness of a query result (`if not results`). -/
def jFalsy : JVal → Bool
  | .objNil => true
  | .arrNil => true
  | .str s => s.isEmpty
  | .strs l => l.isEmpty
  | _ => false

/-- State threaded through the tree walk of `build_relationship_graph`:
the signed graph and the `nodes_info` label table. -/
abbrev GState := RelGraph JVal × List (JVal × JVal)

/-- Python `if current_id not in graph: graph[current_id] = []`. -/
def gEnsure (g : RelGraph JVal) (k : JVal) : RelGraph JVal :=
  if (afind g k).isSome then g else g ++ [(k, [])]

/-- Python `graph[k].append(e)` (the key is always ensured first). -/
def gPush : RelGraph JVal → JVal → JVal × Bool → RelGraph JVal
  | [], _, _ => []
  | (k0, l) :: rest, k, e =>
    if k0 = k then (k0, l ++ [e]) :: rest else (k0, l) :: gPush rest k e

mutual

/-- `extract_nodes_recursive(data, graph, nodes_info)` of
`src/core/distant_nodes.py`: skip non-dicts and objects missing `id` or
`label`; otherwise record the label and walk the four relation kinds. -/
def extract_nodes_recursive : Nat → JVal → GState → GState
  | 0, _, st => st
  | fuel + 1, data, st =>
    if !(isObj data) then st
    else
      match jget data "id", jget data "label" with
      | some current_id, some label =>
        let st1 := (st.1, aset st.2 current_id label)
        let st2 := process_relationships fuel data current_id
          ["synonym~", "synonym"] true st1
        process_relationships fuel data current_id
          ["antonym~", "antonym"] false st2
      | _, _ => st

/-- `process_relationships(data, current_id, rel_types, is_synonym, ...)`:
for each relation kind present as a list, walk its children. -/
def process_relationships : Nat → JVal → JVal → List String → Bool → GState → GState
  | 0, _, _, _, _, st => st
  | _ + 1, _, _, [], _, st => st
  | fuel + 1, data, current_id, rel_type :: rest, is_synonym, st =>
    let st1 :=
      match jget data rel_type with
      | some rels =>
        if isArr rels then
          process_related_list fuel current_id is_synonym rels st
        else st
      | none => st
    process_relationships fuel data current_id rest is_synonym st1

/-- The `for related in relationships` loop. -/
def process_related_list : Nat → JVal → Bool → JVal → GState → GState
  | 0, _, _, _, st => st
  | fuel + 1, current_id, is_synonym, .arrCons related rest, st =>
    process_related_list fuel current_id is_synonym rest
      (process_related fuel current_id is_synonym related st)
  | _ + 1, _, _, _, st => st

/-- Body of the child loop: record the child label if unknown, insert
the edge in both directions, then recurse into the child. -/
def process_related : Nat → JVal → Bool → JVal → GState → GState
  | 0, _, _, _, st => st
  | fuel + 1, current_id, is_synonym, related, st =>
    if !(isObj related) then st
    else
      match jget related "id" with
      | some related_id =>
        let ni :=
          if (afind st.2 related_id).isSome then st.2
          else
            match jget related "label" with
            | some lbl => aset st.2 related_id lbl
            | none => st.2
        let g := gEnsure (gEnsure st.1 current_id) related_id
        let g := gPush g current_id (related_id, is_synonym)
        let g := gPush g related_id (current_id, is_synonym)
        extract_nodes_recursive fuel related (g, ni)
      | none => st

end

/-- The `for node in distant_nodes` loop of `build_relationship_graph`. -/
def build_loop : Nat → JVal → GState → GState
  | 0, _, st => st
  | fuel + 1, .arrCons node rest, st =>
    build_loop fuel rest (extract_nodes_recursive fuel node st)
  | _ + 1, _, st => st

/-- `build_relationship_graph(results)` of `src/core/distant_nodes.py`:
`results.get("distant_nodes", [])`, then extract every root node. -/
def build_relationship_graph (results : JVal) (fuel : Nat) : GState :=
  let nodes :=
    match jget results "distant_nodes" with
    | some v => v
    | none => .arrNil
  build_loop fuel nodes ([], [])

/-- User-facing error taxonomy (section 7 of the spec): `error_print`
exits with a distinct message. -/
inductive CoreError where
  | notFound (id : String)
  | storeFailure (id : String)
deriving DecidableEq

/-- The graph-store collaborator of the distance search: the `if_exist`
query and the relation-tree query (`dgraph_query`, which internally
passes `distance + 1` as the depth bound; an `Except.error` models a
raised query exception). -/
structure DistantStore where
  ifExist : String → Bool
  distantTree : String → Nat → Except String JVal

/-- `find_distant_relationships(node_id, distance, want_synonyms)` of
`src/core/distant_nodes.py`: existence check, store query, graph build,
BFS, filter. -/
def find_distant_relationships (st : DistantStore) (node_id : String)
    (distance : Nat) (want_synonyms : Bool) (fuel : Nat) :
    Except CoreError (List (JVal × JVal)) :=
  if !(st.ifExist node_id) then .error (.notFound node_id)
  else
    match st.distantTree node_id distance with
    | .error _ => .error (.storeFailure node_id)
    | .ok results =>
      if jFalsy results then .ok []
      else
        let gstate := build_relationship_graph results fuel
        let visited :=
          (find_nodes_at_distance (JVal.str node_id) distance gstate.1
            fuel).visited
        .ok (filter_results visited gstate.2 distance (JVal.str node_id)
          want_synonyms)

/-- The graph-store collaborator of the path finder: existence checks
and undirected neighbor queries. A neighbor is `(id, optional label)`,
mirroring `node["id"]` / `node.get("label", neighbor_id)` on the store
response. -/
structure PathStore where
  ifExist : String → Bool
  neighbors : String → List (String × Option String)

/-- One direction's frontier: the level queue, the parent map
(`visited`, `none` marking the root) and the distance map. -/
structure Frontier where
  queue : List String
  visited : List (String × Option String)
  dist : List (String × Nat)
deriving DecidableEq

/-- Python `path_length < best_path_length` with `best_path_length`
starting as infinity. -/
def ltBest (pl : Nat) : Option (Nat × String) → Bool
  | none => true
  | some b => pl < b.1

/-- Body of `process_level` for one popped node: intersection check
against the opposite direction, then neighbor expansion. -/
def processNode (st : PathStore) (opp : Frontier)
    (acc : Frontier × List (String × String) × Option (Nat × String))
    (current_id : String) :
    Frontier × List (String × String) × Option (Nat × String) :=
  let (cur, labels, best) := acc
  let best :=
    if (afind opp.visited current_id).isSome then
      let path_length :=
        (afind cur.dist current_id).getD 0 + (afind opp.dist current_id).getD 0
      if ltBest path_length best then some (path_length, current_id) else best
    else best
  (st.neighbors current_id).foldl
    (fun acc2 node =>
      let (cur, labels, best) := acc2
      let neighbor_id := node.1
      let labels := aset labels neighbor_id (node.2.getD neighbor_id)
      if (afind cur.visited neighbor_id).isSome then (cur, labels, best)
      else
        ({ queue := cur.queue ++ [neighbor_id],
           visited := aset cur.visited neighbor_id (some current_id),
           dist := aset cur.dist neighbor_id
             ((afind cur.dist current_id).getD 0 + 1) },
         labels, best))
    (cur, labels, best)

/-- `process_level` of `src/core/shortest_path.py`: process every node
of the current level (the queue as it stands), appending fresh neighbors
behind the level; returns the updated frontier, the labels, and the
best intersection found in this level. -/
def process_level (st : PathStore) (cur : Frontier)
    (opp : Frontier) (labels : List (String × String)) :
    Frontier × List (String × String) × Option (Nat × String) :=
  cur.queue.foldl (processNode st opp) ({ cur with queue := [] }, labels, none)

/-- State of the main bidirectional loop. -/
structure PathState where
  fwd : Frontier
  bwd : Frontier
  labels : List (String × String)
  bestLen : Option Nat
  bestNode : Option String
deriving DecidableEq

/-- The outer `if intersection and forward_distance[intersection] +
backward_distance[intersection] < best_path_length` update. -/
def updateBest (fwdDist bwdDist : List (String × Nat))
    (intersection : Option String) (bestLen : Option Nat)
    (bestNode : Option String) : Option Nat × Option String :=
  match intersection with
  | none => (bestLen, bestNode)
  | some i =>
    let pl := (afind fwdDist i).getD 0 + (afind bwdDist i).getD 0
    match bestLen with
    | none => (some pl, some i)
    | some b => if pl < b then (some pl, some i) else (bestLen, bestNode)

/-- The `while forward_queue and backward_queue` main loop of
`shortest_path`, fuel-indexed: one forward level (guarded by
`if forward_queue`), one backward level (guarded by `if backward_queue`),
then the lower-bound pruning check on the two queue heads. -/
def pathLoop (st : PathStore) : Nat → PathState → PathState
  | 0, s => s
  | fuel + 1, s =>
    if s.fwd.queue.isEmpty || s.bwd.queue.isEmpty then s
    else
      let s1 :=
        if s.fwd.queue.isEmpty then s
        else
          let r := process_level st s.fwd s.bwd s.labels
          let b := updateBest r.1.dist s.bwd.dist (r.2.2.map (·.2))
            s.bestLen s.bestNode
          { s with fwd := r.1, labels := r.2.1, bestLen := b.1, bestNode := b.2 }
      let s2 :=
        if s1.bwd.queue.isEmpty then s1
        else
          let r := process_level st s1.bwd s1.fwd s1.labels
          let b := updateBest s1.fwd.dist r.1.dist (r.2.2.map (·.2))
            s1.bestLen s1.bestNode
          { s1 with bwd := r.1, labels := r.2.1, bestLen := b.1, bestNode := b.2 }
      let prune : Bool :=
        !s2.fwd.queue.isEmpty && !s2.bwd.queue.isEmpty &&
          (match s2.bestLen with
           | none => false
           | some b =>
             decide (b ≤ (afind s2.fwd.dist (s2.fwd.queue.headD "")).getD 0 +
               (afind s2.bwd.dist (s2.bwd.queue.headD "")).getD 0))
      if prune then s2 else pathLoop st fuel s2

/-- Parent-pointer walk of `reconstruct_bidirectional_path`
(`while current is not None`), bounded by the size of the parent map. -/
def walkChain (pv : List (String × Option String)) : Nat → String → List String
  | 0, c => [c]
  | fuel + 1, c =>
    match afind pv c with
    | some (some p) => c :: walkChain pv fuel p
    | _ => [c]

/-- `reconstruct_bidirectional_path` of `src/core/shortest_path.py`. -/
def reconstruct_bidirectional_path (fv bv : List (String × Option String))
    (intersection : String) (labels : List (String × String)) :
    List (String × String) :=
  let fpath := ((walkChain fv (fv.length + 1) intersection).reverse).map
    (fun n => (n, labelOf labels n))
  let bpath :=
    (match afind bv intersection with
     | some (some p) => walkChain bv (bv.length + 1) p
     | _ => []).map (fun n => (n, labelOf labels n))
  fpath ++ bpath

/-- Initial loop state built by `shortest_path` before its main loop. -/
def initPathState (id1 id2 : String) : PathState :=
  { fwd := ⟨[id1], [(id1, none)], [(id1, 0)]⟩
    bwd := ⟨[id2], [(id2, none)], [(id2, 0)]⟩
    labels := [(id1, id1), (id2, id2)]
    bestLen := none
    bestNode := none }

/-- `shortest_path(id1, id2)` of `src/core/shortest_path.py`: trivial
equal-ids case, existence checks, bidirectional loop, reconstruction
(`[]` when no intersection was found). -/
def shortest_path (st : PathStore) (id1 id2 : String) (fuel : Nat) :
    Except CoreError (List (String × String)) :=
  if id1 = id2 then .ok [(id1, id1)]
  else if !(st.ifExist id1) then .error (.notFound id1)
  else if !(st.ifExist id2) then .error (.notFound id2)
  else
    let s := pathLoop st fuel (initPathState id1 id2)
    match s.bestNode with
    | some m =>
      .ok (reconstruct_bidirectional_path s.fwd.visited s.bwd.visited m
        s.labels)
    | none => .ok []

/-! Concrete instances used by the claim theorems and witnesses. -/

/-- A 2-hop pure-antonym chain `A -antonym- B -antonym- C`, with both
edge directions inserted as `build_relationship_graph` does. -/
def antonymChain : RelGraph String :=
  [("A", [("B", false)]),
   ("B", [("A", false), ("C", false)]),
   ("C", [("B", false)])]

/-- A graph where `A` sits at distance 1 from `R` through parallel
synonym and antonym edges, and `C` hangs off `A` through a synonym
edge. -/
def gBug : RelGraph String :=
  [("R", [("A", true), ("A", false)]),
   ("A", [("R", true), ("R", false), ("C", true)]),
   ("C", [("A", true)])]

/-- A child object carrying both `id` and `label`. -/
def treeY : JVal := .objCons "id" (.str "y") (.objCons "label" (.str "ly") .objNil)

/-- An object with an `id` and a synonym child but no `label`. -/
def treeNoLabel : JVal :=
  .objCons "id" (.str "x") (.objCons "synonym" (.arrCons treeY .arrNil) .objNil)

/-- The same object with a `label` added. -/
def treeBoth : JVal :=
  .objCons "id" (.str "x") (.objCons "label" (.str "lx")
    (.objCons "synonym" (.arrCons treeY .arrNil) .objNil))

/-- A store where `A` is isolated while `B` and `C` are joined, so the
forward queue from `A` drains while the backward queue still holds
nodes. -/
def stCE : PathStore :=
  { ifExist := fun _ => true
    neighbors := fun n =>
      if n = "B" then [("C", none)]
      else if n = "C" then [("B", none)] else [] }

/-- A store that knows no node at all. -/
def deadDistantStore : DistantStore :=
  { ifExist := fun _ => false
    distantTree := fun _ _ => .error "down" }

/-- A path store that knows no node at all. -/
def deadPathStore : PathStore :=
  { ifExist := fun _ => false
    neighbors := fun _ => [] }

/-- A path store where only the node `u` exists. -/
def onePathStore : PathStore :=
  { ifExist := fun n => n = "u"
    neighbors := fun _ => [] }

/-! Helper lemmas. -/

theorem afind_aset_self {α β : Type} [DecidableEq α]
    (l : List (α × β)) (a : α) (v : β) :
    afind (aset l a v) a = some v := by
  induction l with
  | nil => simp [aset, afind]
  | cons hd tl ih =>
    obtain ⟨k, w⟩ := hd
    by_cases h : k = a
    · simp [aset, afind, h]
    · simp [aset, afind, h, ih]

theorem afind_aset_ne {α β : Type} [DecidableEq α]
    (l : List (α × β)) (a b : α) (v : β) (h : b ≠ a) :
    afind (aset l a v) b = afind l b := by
  induction l with
  | nil => simp [aset, afind, Ne.symm h]
  | cons hd tl ih =>
    obtain ⟨k, w⟩ := hd
    by_cases hk : k = a
    · subst hk
      have hkb : ¬k = b := fun hh => h hh.symm
      simp [aset, afind, hkb]
    · by_cases hb : k = b
      · simp [aset, afind, hk, hb, h]
      · simp [aset, afind, hk, hb, ih]

theorem afind_aset_isSome {α β : Type} [DecidableEq α]
    (l : List (α × β)) (a b : α) (v : β)
    (h : (afind l b).isSome) : (afind (aset l a v) b).isSome := by
  by_cases hab : b = a
  · subst hab; simp [afind_aset_self]
  · rwa [afind_aset_ne l a b v hab]

theorem pairwise_snoc (l : List Nat) (x : Nat)
    (h : List.Pairwise (· ≤ ·) l) (hx : ∀ a ∈ l, a ≤ x) :
    List.Pairwise (· ≤ ·) (l ++ [x]) := by
  refine List.pairwise_append.mpr ⟨h, List.pairwise_singleton .., ?_⟩
  intro a ha b hb
  rw [List.mem_singleton] at hb
  subst hb
  exact hx a ha

/-- Membership characterization of `filter_results`. -/
theorem filter_results_mem {α : Type} [DecidableEq α] (visited : VisitedRec α)
    (ni : List (α × α)) (d : Nat) (root : α) (w : Bool) (p : α × α) :
    p ∈ filter_results visited ni d root w ↔
      ∃ n dn ss, (n, dn, ss) ∈ visited ∧ dn = d ∧ n ≠ root ∧ w ∈ ss ∧
        p = (n, labelOf ni n) := by
  simp only [filter_results, List.mem_filterMap]
  constructor
  · rintro ⟨⟨n, dn, ss⟩, hmem, hf⟩
    split_ifs at hf with hc
    obtain ⟨h1, h2, h3⟩ := hc
    exact ⟨n, dn, ss, hmem, h1, h2, h3, (Option.some_inj.mp hf).symm⟩
  · rintro ⟨n, dn, ss, hmem, h1, h2, h3, hp⟩
    exact ⟨(n, dn, ss), hmem, by simp [h1, h2, h3, hp]⟩

/-- With target distance `0`, every popped queue entry is skipped, so
the visited record never changes. -/
theorem bfsLoop_distance_zero {α : Type} [DecidableEq α] (g : RelGraph α) :
    ∀ (fuel : Nat) (q : List (α × Nat × Bool)) (v : VisitedRec α)
      (ps : List Nat) (ds : List (α × Nat)),
      (bfsLoop g 0 fuel q v ps ds).visited = v := by
  intro fuel
  induction fuel with
  | zero => intro q v ps ds; rfl
  | succ n ih =>
    intro q v ps ds
    match q with
    | [] => rfl
    | (c, d, s) :: q => simp only [bfsLoop, Nat.zero_le, if_true]; exact ih ..

theorem bfsStep_inv {α : Type} [DecidableEq α]
    (c : α) (d : Nat) (s : Bool) (ps : List Nat)
    (v : VisitedRec α) (q : List (α × Nat × Bool)) (ds : List (α × Nat))
    (nbr : α × Bool)
    (hpw : List.Pairwise (· ≤ ·) (ps ++ qdists q))
    (hbnd : ∀ x ∈ q, d ≤ x.2.1 ∧ x.2.1 ≤ d + 1)
    (hps : ∀ p ∈ ps, p ≤ d)
    (hmin : VMin v ds)
    (hcl : DiscClosed v ds) :
    List.Pairwise (· ≤ ·) (ps ++ qdists (bfsStep (c, d, s) (v, q, ds) nbr).2.1) ∧
    (∀ x ∈ (bfsStep (c, d, s) (v, q, ds) nbr).2.1, d ≤ x.2.1 ∧ x.2.1 ≤ d + 1) ∧
    VMin (bfsStep (c, d, s) (v, q, ds) nbr).1 (bfsStep (c, d, s) (v, q, ds) nbr).2.2 ∧
    DiscClosed (bfsStep (c, d, s) (v, q, ds) nbr).1
      (bfsStep (c, d, s) (v, q, ds) nbr).2.2 := by
  have hsnoc : List.Pairwise (· ≤ ·)
      (ps ++ qdists (q ++ [(nbr.1, d + 1, neighborSign s nbr.2)])) := by
    have hq : qdists (q ++ [(nbr.1, d + 1, neighborSign s nbr.2)])
        = qdists q ++ [d + 1] := by simp [qdists]
    rw [hq, ← List.append_assoc]
    refine pairwise_snoc _ _ hpw ?_
    intro a ha
    rcases List.mem_append.mp ha with h | h
    · exact le_trans (hps a h) (Nat.le_succ d)
    · rcases List.mem_map.mp h with ⟨x, hx, rfl⟩
      exact (hbnd x hx).2
  have hbnd' : ∀ x ∈ q ++ [(nbr.1, d + 1, neighborSign s nbr.2)],
      d ≤ x.2.1 ∧ x.2.1 ≤ d + 1 := by
    intro x hx
    rcases List.mem_append.mp hx with h | h
    · exact hbnd x h
    · rw [List.mem_singleton] at h
      subst h
      exact ⟨Nat.le_succ d, le_refl _⟩
  rcases hv : afind v nbr.1 with _ | ⟨d0, ss⟩
  · -- first time seeing this node
    simp only [bfsStep, hv]
    refine ⟨hsnoc, hbnd', ?_, ?_⟩
    · intro m dm ssm hm
      by_cases hmn : m = nbr.1
      · subst hmn
        rw [afind_aset_self] at hm
        obtain ⟨h1, h2⟩ := Prod.mk.injEq .. ▸ Option.some_inj.mp hm
        cases h1
        constructor
        · exact List.mem_append.mpr (Or.inr (List.mem_singleton.mpr rfl))
        · intro d' hd'
          rcases List.mem_append.mp hd' with h | h
          · exact absurd (hcl nbr.1 d' h) (by simp [hv])
          · rw [List.mem_singleton] at h
            cases h
            exact le_refl _
      · rw [afind_aset_ne _ _ _ _ hmn] at hm
        obtain ⟨hmem, hle⟩ := hmin m dm ssm hm
        refine ⟨List.mem_append.mpr (Or.inl hmem), ?_⟩
        intro d' hd'
        rcases List.mem_append.mp hd' with h | h
        · exact hle d' h
        · rw [List.mem_singleton] at h
          cases h
          exact absurd rfl hmn
    · intro m d' hd'
      rcases List.mem_append.mp hd' with h | h
      · exact afind_aset_isSome _ _ _ _ (hcl m d' h)
      · rw [List.mem_singleton] at h
        cases h
        simp [afind_aset_self]
  · by_cases he : d + 1 = d0
    · -- same distance, possibly new relationship type
      simp only [bfsStep, hv, if_pos he]
      refine ⟨hpw, hbnd, ?_, ?_⟩
      · intro m dm ssm hm
        by_cases hmn : m = nbr.1
        · subst hmn
          rw [afind_aset_self] at hm
          obtain ⟨h1, h2⟩ := Prod.mk.injEq .. ▸ Option.some_inj.mp hm
          cases h1
          obtain ⟨hmem, hle⟩ := hmin nbr.1 d0 ss hv
          constructor
          · exact List.mem_append.mpr (Or.inl hmem)
          · intro d' hd'
            rcases List.mem_append.mp hd' with h | h
            · exact hle d' h
            · rw [List.mem_singleton] at h
              cases h
              exact le_of_eq he.symm
        · rw [afind_aset_ne _ _ _ _ hmn] at hm
          obtain ⟨hmem, hle⟩ := hmin m dm ssm hm
          refine ⟨List.mem_append.mpr (Or.inl hmem), ?_⟩
          intro d' hd'
          rcases List.mem_append.mp hd' with h | h
          · exact hle d' h
          · rw [List.mem_singleton] at h
            cases h
            exact absurd rfl hmn
      · intro m d' hd'
        rcases List.mem_append.mp hd' with h | h
        · exact afind_aset_isSome _ _ _ _ (hcl m d' h)
        · rw [List.mem_singleton] at h
          cases h
          simp [afind_aset_self]
    · by_cases hlt : d + 1 < d0
      · -- found a shorter path
        simp only [bfsStep, hv, if_neg he, if_pos hlt]
        refine ⟨hsnoc, hbnd', ?_, ?_⟩
        · intro m dm ssm hm
          by_cases hmn : m = nbr.1
          · subst hmn
            rw [afind_aset_self] at hm
            obtain ⟨h1, h2⟩ := Prod.mk.injEq .. ▸ Option.some_inj.mp hm
            cases h1
            constructor
            · exact List.mem_append.mpr (Or.inr (List.mem_singleton.mpr rfl))
            · intro d' hd'
              rcases List.mem_append.mp hd' with h | h
              · obtain ⟨_, hle⟩ := hmin nbr.1 d0 ss hv
                exact le_trans (le_of_lt hlt) (hle d' h)
              · rw [List.mem_singleton] at h
                cases h
                exact le_refl _
          · rw [afind_aset_ne _ _ _ _ hmn] at hm
            obtain ⟨hmem, hle⟩ := hmin m dm ssm hm
            refine ⟨List.mem_append.mpr (Or.inl hmem), ?_⟩
            intro d' hd'
            rcases List.mem_append.mp hd' with h | h
            · exact hle d' h
            · rw [List.mem_singleton] at h
              cases h
              exact absurd rfl hmn
        · intro m d' hd'
          rcases List.mem_append.mp hd' with h | h
          · exact afind_aset_isSome _ _ _ _ (hcl m d' h)
          · rw [List.mem_singleton] at h
            cases h
            simp [afind_aset_self]
      · -- stale: already seen at a strictly smaller distance
        simp only [bfsStep, hv, if_neg he, if_neg hlt]
        refine ⟨hpw, hbnd, ?_, ?_⟩
        · intro m dm ssm hm
          obtain ⟨hmem, hle⟩ := hmin m dm ssm hm
          refine ⟨List.mem_append.mpr (Or.inl hmem), ?_⟩
          intro d' hd'
          rcases List.mem_append.mp hd' with h | h
          · exact hle d' h
          · rw [List.mem_singleton] at h
            cases h
            rw [hv] at hm
            obtain ⟨h1, h2⟩ := Prod.mk.injEq .. ▸ Option.some_inj.mp hm
            cases h1
            exact le_of_not_lt hlt
        · intro m d' hd'
          rcases List.mem_append.mp hd' with h | h
          · exact hcl m d' h
          · rw [List.mem_singleton] at h
            cases h
            simp [hv]

theorem bfsFold_inv {α : Type} [DecidableEq α]
    (c : α) (d : Nat) (s : Bool) (ps : List Nat)
    (nbrs : List (α × Bool)) :
    ∀ (v : VisitedRec α) (q : List (α × Nat × Bool)) (ds : List (α × Nat)),
      List.Pairwise (· ≤ ·) (ps ++ qdists q) →
      (∀ x ∈ q, d ≤ x.2.1 ∧ x.2.1 ≤ d + 1) →
      (∀ p ∈ ps, p ≤ d) →
      VMin v ds → DiscClosed v ds →
      List.Pairwise (· ≤ ·)
          (ps ++ qdists (nbrs.foldl (bfsStep (c, d, s)) (v, q, ds)).2.1) ∧
      (∀ x ∈ (nbrs.foldl (bfsStep (c, d, s)) (v, q, ds)).2.1,
          d ≤ x.2.1 ∧ x.2.1 ≤ d + 1) ∧
      VMin (nbrs.foldl (bfsStep (c, d, s)) (v, q, ds)).1
          (nbrs.foldl (bfsStep (c, d, s)) (v, q, ds)).2.2 ∧
      DiscClosed (nbrs.foldl (bfsStep (c, d, s)) (v, q, ds)).1
          (nbrs.foldl (bfsStep (c, d, s)) (v, q, ds)).2.2 := by
  induction nbrs with
  | nil => intro v q ds h1 h2 h3 h4 h5; exact ⟨h1, h2, h4, h5⟩
  | cons nbr rest ih =>
    intro v q ds h1 h2 h3 h4 h5
    have hs := bfsStep_inv c d s ps v q ds nbr h1 h2 h3 h4 h5
    rw [List.foldl_cons]
    exact ih _ _ _ hs.1 hs.2.1 h3 hs.2.2.1 hs.2.2.2

theorem bfsLoop_inv {α : Type} [DecidableEq α] (g : RelGraph α) (distance : Nat) :
    ∀ (fuel : Nat) (q : List (α × Nat × Bool)) (v : VisitedRec α)
      (ps : List Nat) (ds : List (α × Nat)),
      List.Pairwise (· ≤ ·) (ps ++ qdists q) →
      (∀ x ∈ q, ∀ y ∈ q, x.2.1 ≤ y.2.1 + 1) →
      VMin v ds → DiscClosed v ds →
      List.Pairwise (· ≤ ·) (bfsLoop g distance fuel q v ps ds).pops ∧
      VMin (bfsLoop g distance fuel q v ps ds).visited
        (bfsLoop g distance fuel q v ps ds).discs := by
  intro fuel
  induction fuel with
  | zero =>
    intro q v ps ds h1 h2 h3 h4
    exact ⟨(List.pairwise_append.mp h1).1, h3⟩
  | succ n ih =>
    intro q v ps ds h1 h2 h3 h4
    rcases q with _ | ⟨⟨c, d, s⟩, q⟩
    · exact ⟨(List.pairwise_append.mp h1).1, h3⟩
    · have hcons : qdists (((c, d, s)) :: q) = d :: qdists q := by simp [qdists]
      rw [hcons] at h1
      have h1' : List.Pairwise (· ≤ ·) ((ps ++ [d]) ++ qdists q) := by
        rw [← List.append_cons]
        exact h1
      have hps_le : ∀ p ∈ ps ++ [d], p ≤ d := by
        intro p hp
        rcases List.mem_append.mp hp with h | h
        · exact (List.pairwise_append.mp h1).2.2 p h d (List.mem_cons_self _ _)
        · rw [List.mem_singleton] at h
          subst h
          exact le_refl _
      have htl : ∀ x ∈ q, d ≤ x.2.1 ∧ x.2.1 ≤ d + 1 := by
        intro x hx
        constructor
        · have hpc := List.pairwise_cons.mp (List.pairwise_append.mp h1).2.1
          exact hpc.1 x.2.1 (List.mem_map.mpr ⟨x, hx, rfl⟩)
        · exact h2 x (List.mem_cons_of_mem _ hx) (c, d, s) (List.mem_cons_self _ _)
      by_cases hd : distance ≤ d
      · simp only [bfsLoop, if_pos hd]
        exact ih q v (ps ++ [d]) ds h1' (fun x hx y hy =>
          h2 x (List.mem_cons_of_mem _ hx) y (List.mem_cons_of_mem _ hy)) h3 h4
      · simp only [bfsLoop, if_neg hd]
        have hf := bfsFold_inv c d s (ps ++ [d]) (g.get c) v q ds h1' htl
          hps_le h3 h4
        refine ih _ _ _ _ hf.1 ?_ hf.2.2.1 hf.2.2.2
        intro x hx y hy
        exact le_trans (hf.2.1 x hx).2 (Nat.succ_le_succ (hf.2.1 y hy).1)

/-! Claim theorems. -/

/-- C1: code bug witness. In `find_nodes_at_distance`, when a neighbor
is reached again at the same minimal distance with a new sign, the sign
is added to the sign set but the neighbor is NOT enqueued again, so the
new sign never propagates.  In `gBug`, node `A` sits at distance 1 from
the root `R` with both signs, and `C` at distance 2 behind `A` through a
synonym edge; the antonym possibility for `C` (via `R -antonym- A
-synonym- C`, sign `neighborSign (neighborSign true false) true =
false`) is missing from `C`'s recorded sign set, and the distance-2
antonym filter comes back empty although `C` is antonym-achievable at
its minimal distance. -/
theorem same_distance_new_sign_not_propagated :
    (("A", false) ∈ gBug.get "R") ∧
    (("C", true) ∈ gBug.get "A") ∧
    neighborSign (neighborSign true false) true = false ∧
    afind (find_nodes_at_distance "R" 2 gBug 10).visited "A"
      = some (1, [true, false]) ∧
    afind (find_nodes_at_distance "R" 2 gBug 10).visited "C"
      = some (2, [true]) ∧
    filter_results (find_nodes_at_distance "R" 2 gBug 10).visited [] 2 "R" false
      = [] := by
  decide

/-- C2: in `find_nodes_at_distance`, a neighbor reached from a node of
sign `s` across an edge of sign `e` gets the sign `s XNOR e` (boolean
equality): a synonym edge (`e = true`) preserves `s`, an antonym edge
(`e = false`) flips it; consequently two antonym hops compose to
synonym, both at the level of `neighborSign` and on a concrete 2-hop
antonym chain, where the node two antonym hops away is reported as a
distance-2 synonym and not as an antonym. -/
theorem distance_search_sign_is_xnor :
    (∀ s e, neighborSign s e = (s == e)) ∧
    (∀ s, neighborSign (neighborSign s false) false = s) ∧
    filter_results (find_nodes_at_distance "A" 2 antonymChain 10).visited
        [] 2 "A" true = [("C", "C")] ∧
    filter_results (find_nodes_at_distance "A" 2 antonymChain 10).visited
        [] 2 "A" false = [] := by
  refine ⟨by decide, by decide, by decide, by decide⟩

/-- C3 counterexample: the claim says an object carrying at least one of
`id` and `label` is processed.  `treeNoLabel` carries an `id` (and a
synonym child that would produce an edge) but no `label`, and
`extract_nodes_recursive` skips it and its entire subtree, leaving the
graph and label table untouched; adding the `label` (`treeBoth`) makes
the same walk produce the edge and both labels. -/
theorem extract_skips_object_with_id_but_no_label :
    hasKey treeNoLabel "id" = true ∧
    hasKey treeNoLabel "label" = false ∧
    extract_nodes_recursive 10 treeNoLabel ([], []) = ([], []) ∧
    extract_nodes_recursive 10 treeBoth ([], []) =
      ([(JVal.str "x", [(JVal.str "y", true)]),
        (JVal.str "y", [(JVal.str "x", true)])],
       [(JVal.str "x", JVal.str "lx"), (JVal.str "y", JVal.str "ly")]) := by
  decide

/-- C3 (amended): an object and its entire subtree are skipped as soon
as the object lacks `id` OR lacks `label` (also when it is not an
object at all); an object carrying both has its label recorded
(unconditionally overwriting) and its four relation kinds walked. -/
theorem extract_skip_iff :
    (∀ (fuel : Nat) (data : JVal) (st : GState),
        hasKey data "id" = false ∨ hasKey data "label" = false →
        extract_nodes_recursive fuel data st = st) ∧
    (∀ (fuel : Nat) (data : JVal) (cid lbl : JVal) (st : GState),
        isObj data = true → jget data "id" = some cid →
        jget data "label" = some lbl →
        extract_nodes_recursive (fuel + 1) data st =
          process_relationships fuel data cid ["antonym~", "antonym"] false
            (process_relationships fuel data cid ["synonym~", "synonym"] true
              (st.1, aset st.2 cid lbl))) := by
  constructor
  · intro fuel data st h
    cases fuel with
    | zero => rfl
    | succ n =>
      by_cases hobj : isObj data
      · rcases h with h | h
        · have hid : jget data "id" = none := by
            rw [hasKey] at h
            exact Option.not_isSome_iff_eq_none.mp (by simp [h])
          simp [extract_nodes_recursive, hobj, hid]
        · have hlab : jget data "label" = none := by
            rw [hasKey] at h
            exact Option.not_isSome_iff_eq_none.mp (by simp [h])
          rcases hid : jget data "id" with _ | cid <;>
            simp [extract_nodes_recursive, hobj, hid, hlab]
      · simp [extract_nodes_recursive, hobj]
  · intro fuel data cid lbl st hobj hid hlab
    simp [extract_nodes_recursive, hobj, hid, hlab]

/-- Witness for the amended C3 theorem at concrete inputs. -/
theorem extract_skip_iff_witness :
    extract_nodes_recursive 5 treeNoLabel ([], []) = ([], []) ∧
    extract_nodes_recursive 10 treeBoth ([], []) =
      process_relationships 9 treeBoth (JVal.str "x") ["antonym~", "antonym"]
        false
        (process_relationships 9 treeBoth (JVal.str "x") ["synonym~", "synonym"]
          true (([] : RelGraph JVal), aset [] (JVal.str "x") (JVal.str "lx"))) :=
  ⟨extract_skip_iff.1 5 treeNoLabel ([], []) (Or.inr rfl),
   extract_skip_iff.2 9 treeBoth (JVal.str "x") (JVal.str "lx") ([], [])
     rfl rfl rfl⟩

/-- C4 counterexample: the main loop of `shortest_path` stops as soon as
one queue is empty, even while the other still holds nodes.  With
`stCE`, starting from `A` and `B`, after one round the forward queue is
empty while the backward queue still holds `C`; the loop is a fixpoint
there (more fuel changes nothing), i.e. the backward frontier is never
expanded further. -/
theorem pathLoop_stops_when_one_queue_empties :
    (pathLoop stCE 10 (initPathState "A" "B")).fwd.queue = [] ∧
    (pathLoop stCE 10 (initPathState "A" "B")).bwd.queue = ["C"] ∧
    pathLoop stCE 10 (initPathState "A" "B") =
      pathLoop stCE 50 (initPathState "A" "B") := by
  decide

/-- C4 (amended): the main loop of `shortest_path` is repeated while
BOTH queues are non-empty (processing one full forward level then one
full backward level per iteration); as soon as either queue is empty the
loop stops without further expansion. -/
theorem pathLoop_guard_requires_both (st : PathStore) (fuel : Nat)
    (s : PathState) (h : s.fwd.queue = [] ∨ s.bwd.queue = []) :
    pathLoop st fuel s = s := by
  cases fuel with
  | zero => rfl
  | succ n =>
    have hE : (s.fwd.queue.isEmpty || s.bwd.queue.isEmpty) = true := by
      rcases h with h | h <;> simp [h]
    simp [pathLoop, hE]

/-- Witness for the amended C4 theorem at a concrete state. -/
theorem pathLoop_guard_requires_both_witness :
    pathLoop stCE 3
      { fwd := ⟨[], [], []⟩, bwd := ⟨["B"], [("B", none)], [("B", 0)]⟩,
        labels := [], bestLen := none, bestNode := none } =
      { fwd := ⟨[], [], []⟩, bwd := ⟨["B"], [("B", none)], [("B", 0)]⟩,
        labels := [], bestLen := none, bestNode := none } :=
  pathLoop_guard_requires_both stCE 3 _ (Or.inl rfl)

/-- C5: `filter_results` returns exactly the nodes recorded at the
target distance, other than the root, whose sign set contains the wanted
sign, each as `(id, label)` with the label defaulting to the id; and for
every graph a search with target distance `0` filtered at distance `0`
is empty (the root is always excluded). -/
theorem filter_results_exact {α : Type} [DecidableEq α] :
    (∀ (visited : VisitedRec α) (ni : List (α × α)) (d : Nat) (root : α)
        (w : Bool) (p : α × α),
      p ∈ filter_results visited ni d root w ↔
        ∃ n dn ss, (n, dn, ss) ∈ visited ∧ dn = d ∧ n ≠ root ∧ w ∈ ss ∧
          p = (n, labelOf ni n)) ∧
    (∀ (g : RelGraph α) (root : α) (ni : List (α × α)) (w : Bool)
        (fuel : Nat),
      filter_results (find_nodes_at_distance root 0 g fuel).visited
        ni 0 root w = []) := by
  constructor
  · exact fun visited ni d root w p => filter_results_mem visited ni d root w p
  · intro g root ni w fuel
    have h : (find_nodes_at_distance root 0 g fuel).visited
        = [(root, 0, [true])] := by
      unfold find_nodes_at_distance
      exact bfsLoop_distance_zero g fuel _ _ _ _
    rw [h]
    simp [filter_results]

/-- C6: two edge-type values match exactly when they are equal strings,
lists sharing an element, or a string contained in the other's list;
any combination involving another runtime shape never matches. -/
theorem edge_types_match_iff (t1 t2 : EdgeType) :
    edge_types_match t1 t2 = true ↔
      ((∃ a, t1 = .str a ∧ t2 = .str a) ∨
       (∃ l1 l2 x, t1 = .strs l1 ∧ t2 = .strs l2 ∧ x ∈ l1 ∧ x ∈ l2) ∨
       (∃ a l, t1 = .str a ∧ t2 = .strs l ∧ a ∈ l) ∨
       (∃ a l, t1 = .strs l ∧ t2 = .str a ∧ a ∈ l)) := by
  cases t1 with
  | str a =>
    cases t2 with
    | str b =>
      simp only [edge_types_match, decide_eq_true_eq]
      constructor
      · intro h; subst h; exact Or.inl ⟨a, rfl, rfl⟩
      · rintro (⟨c, h1, h2⟩ | ⟨l1, l2, x, h1, h2, _, _⟩ |
            ⟨c, l, h1, h2, _⟩ | ⟨c, l, h1, h2, _⟩)
        · cases h1; cases h2; rfl
        · cases h1
        · cases h2
        · cases h1
    | strs l =>
      simp only [edge_types_match, decide_eq_true_eq]
      constructor
      · intro h; exact Or.inr (Or.inr (Or.inl ⟨a, l, rfl, rfl, h⟩))
      · rintro (⟨c, h1, h2⟩ | ⟨l1, l2, x, h1, h2, _, _⟩ |
            ⟨c, l', h1, h2, hm⟩ | ⟨c, l', h1, h2, _⟩)
        · cases h2
        · cases h1
        · cases h1; cases h2; exact hm
        · cases h1
    | other => simp [edge_types_match]
  | strs l1 =>
    cases t2 with
    | str b =>
      simp only [edge_types_match, decide_eq_true_eq]
      constructor
      · intro h; exact Or.inr (Or.inr (Or.inr ⟨b, l1, rfl, rfl, h⟩))
      · rintro (⟨c, h1, h2⟩ | ⟨l1', l2, x, h1, h2, _, _⟩ |
            ⟨c, l', h1, h2, _⟩ | ⟨c, l', h1, h2, hm⟩)
        · cases h1
        · cases h2
        · cases h1
        · cases h1; cases h2; exact hm
    | strs l2 =>
      simp only [edge_types_match, List.any_eq_true, decide_eq_true_eq]
      constructor
      · rintro ⟨x, hx1, hx2⟩
        exact Or.inr (Or.inl ⟨l1, l2, x, rfl, rfl, hx1, hx2⟩)
      · rintro (⟨c, h1, h2⟩ | ⟨l1', l2', x, h1, h2, hx1, hx2⟩ |
            ⟨c, l', h1, h2, _⟩ | ⟨c, l', h1, h2, _⟩)
        · cases h1
        · cases h1; cases h2; exact ⟨x, hx1, hx2⟩
        · cases h1
        · cases h2
    | other => simp [edge_types_match]
  | other => cases t2 <;> simp [edge_types_match]

/-- C7: when a caller-supplied id does not exist in the store, both the
distance search and the path finder (for distinct ids) stop with a
distinct NotFound error before any traversal, instead of returning an
empty successful result. -/
theorem not_found_is_distinct_error :
    (∀ (ds : DistantStore) (n : String) (distance : Nat) (w : Bool)
        (fuel : Nat),
        ds.ifExist n = false →
        find_distant_relationships ds n distance w fuel =
          .error (.notFound n)) ∧
    (∀ (ps : PathStore) (a b : String) (fuel : Nat),
        a ≠ b → ps.ifExist a = false →
        shortest_path ps a b fuel = .error (.notFound a)) ∧
    (∀ (ps : PathStore) (a b : String) (fuel : Nat),
        a ≠ b → ps.ifExist a = true → ps.ifExist b = false →
        shortest_path ps a b fuel = .error (.notFound b)) := by
  refine ⟨?_, ?_, ?_⟩
  · intro ds n distance w fuel h
    simp [find_distant_relationships, h]
  · intro ps a b fuel hne h
    simp [shortest_path, hne, h]
  · intro ps a b fuel hne h1 h2
    simp [shortest_path, hne, h1, h2]

/-- Witness for the NotFound theorem at concrete stores. -/
theorem not_found_is_distinct_error_witness :
    find_distant_relationships deadDistantStore "x" 2 true 5 =
      .error (.notFound "x") ∧
    shortest_path deadPathStore "u" "v" 5 = .error (.notFound "u") ∧
    shortest_path onePathStore "u" "v" 5 = .error (.notFound "v") :=
  ⟨not_found_is_distinct_error.1 deadDistantStore "x" 2 true 5 rfl,
   not_found_is_distinct_error.2.1 deadPathStore "u" "v" 5 (by decide) rfl,
   not_found_is_distinct_error.2.2 onePathStore "u" "v" 5 (by decide)
     (by decide) rfl⟩

/-- C8: for every id `a` and every store, `shortest_path a a` returns
the one-element path `[(a, a)]`. -/
theorem shortest_path_self_singleton (ps : PathStore) (a : String)
    (fuel : Nat) : shortest_path ps a a fuel = .ok [(a, a)] := by
  simp [shortest_path]

/-- C9: in `find_nodes_at_distance`, the distances of queue entries in
pop order are monotone non-decreasing, and every recorded distance is
the minimum over all discovery events for that node (the minimal number
of hops from the root at which it was discovered during the run). -/
theorem bfs_pops_monotone_min {α : Type} [DecidableEq α] (root : α)
    (distance : Nat) (g : RelGraph α) (fuel : Nat) :
    List.Pairwise (· ≤ ·) (find_nodes_at_distance root distance g fuel).pops ∧
    ∀ n dn ss,
      afind (find_nodes_at_distance root distance g fuel).visited n
          = some (dn, ss) →
      (n, dn) ∈ (find_nodes_at_distance root distance g fuel).discs ∧
      ∀ d', (n, d') ∈ (find_nodes_at_distance root distance g fuel).discs →
        dn ≤ d' := by
  unfold find_nodes_at_distance
  refine bfsLoop_inv g distance fuel _ _ _ _ ?_ ?_ ?_ ?_
  · simp [qdists]
  · intro x hx y hy
    rw [List.mem_singleton] at hx hy
    subst hx; subst hy
    exact Nat.le_succ _
  · intro n dn ss h
    simp only [afind] at h
    split_ifs at h with hr
    · subst hr
      obtain ⟨h1, h2⟩ := Prod.mk.injEq .. ▸ Option.some_inj.mp h
      cases h1
      refine ⟨List.mem_singleton.mpr rfl, ?_⟩
      intro d' hd'
      rw [List.mem_singleton] at hd'
      cases hd'
      exact le_refl _
  · intro n d' hd'
    rw [List.mem_singleton] at hd'
    cases hd'
    simp [afind]

/-- Witness for the BFS invariant theorem at a concrete graph. -/
theorem bfs_pops_monotone_min_witness :
    ("A", 1) ∈ (find_nodes_at_distance "R" 2 gBug 10).discs :=
  ((bfs_pops_monotone_min "R" 2 gBug 10).2 "A" 1 [true, false] (by decide)).1

/-- C10: `shortest_path a a` returns before the existence checks, so it
succeeds for every store, in particular one where `a` does not exist;
for distinct ids both existence checks run before any frontier
expansion, failing with NotFound on whichever id is missing. -/
theorem trivial_self_path_skips_existence_checks :
    (∀ (ps : PathStore) (a : String) (fuel : Nat),
        ps.ifExist a = false → shortest_path ps a a fuel = .ok [(a, a)]) ∧
    (∀ (ps : PathStore) (a b : String) (fuel : Nat),
        a ≠ b → ps.ifExist a = false →
        shortest_path ps a b fuel = .error (.notFound a)) ∧
    (∀ (ps : PathStore) (a b : String) (fuel : Nat),
        a ≠ b → ps.ifExist a = true → ps.ifExist b = false →
        shortest_path ps a b fuel = .error (.notFound b)) := by
  refine ⟨?_, ?_, ?_⟩
  · intro ps a fuel _
    simp [shortest_path]
  · intro ps a b fuel hne h
    simp [shortest_path, hne, h]
  · intro ps a b fuel hne h1 h2
    simp [shortest_path, hne, h1, h2]

/-- Witness: the trivial self path succeeds on a store that knows no
node, and the existence checks fire for distinct ids. -/
theorem trivial_self_path_skips_existence_checks_witness :
    shortest_path deadPathStore "a" "a" 5 = .ok [("a", "a")] ∧
    shortest_path deadPathStore "a" "b" 5 = .error (.notFound "a") ∧
    shortest_path onePathStore "u" "w" 5 = .error (.notFound "w") :=
  ⟨trivial_self_path_skips_existence_checks.1 deadPathStore "a" 5 rfl,
   trivial_self_path_skips_existence_checks.2.1 deadPathStore "a" "b" 5
     (by decide) rfl,
   trivial_self_path_skips_existence_checks.2.2 onePathStore "u" "w" 5
     (by decide) (by decide) rfl⟩
